import Mathlib

/-!
Verification of the chunk-embed-retrieve-generate pipeline of the RAG MVP
repository (`src/lib/utils.ts`, `src/app/api/rag/query/route.ts`,
`src/app/api/ingestion/worker/route.ts`).

Strings from the TypeScript side are modelled as `List Char`, except where a
value is only carried around opaquely (ids, messages, metadata values), where
Lean `String` is used. JavaScript numbers appearing as counts are modelled as
`Nat`; the top-K parameter, which the code forwards unclamped (it can be
negative), is modelled as `Int`. Floating-point similarity scores are never
computed on by the code under verification (they are only copied through), so
they are modelled as `Int` pass-through values.
-/

set_option autoImplicit false

namespace RagMvp

/-! ## Whitespace splitting, `text.split(/\s+/)` -/

/-- Whitespace predicate of the JavaScript regex class `\s` (restricted to the
ASCII whitespace characters; the repository only ever feeds text through this
predicate, and no claim distinguishes the exotic Unicode space code points). -/
def isWs (c : Char) : Bool :=
  c = ' ' || c = '\t' || c = '\n' || c = '\r' || c = '\x0b' || c = '\x0c'

/-- Accumulator loop for `String.prototype.split(/\s+/)`.

`prevWs` records whether the previously examined character was whitespace
(so that a run of consecutive whitespace characters acts as one separator);
`acc` holds the characters of the current segment in reverse order.

JavaScript semantics modelled exactly: a leading whitespace run yields a
leading empty segment, a trailing whitespace run yields a trailing empty
segment, and splitting the empty string yields `[""]`. -/
def splitWsAux : List Char → Bool → List Char → List (List Char)
  | [], _, acc => [acc.reverse]
  | c :: cs, prevWs, acc =>
    if isWs c then
      if prevWs then splitWsAux cs true acc
      else acc.reverse :: splitWsAux cs true []
    else splitWsAux cs false (c :: acc)

/-- `text.split(/\s+/)` from `chunkText` (`src/lib/utils.ts` line 222). -/
def jsSplitWs (text : List Char) : List (List Char) :=
  splitWsAux text false []

/-! ## Joining with single spaces, `arr.join(" ")` -/

/-- `arr.join(" ")` on a list of words (`src/lib/utils.ts` lines 231, 241). -/
def joinSp : List (List Char) → List Char
  | [] => []
  | [w] => w
  | w :: w2 :: ws => w ++ ' ' :: joinSp (w2 :: ws)

/-! ## The chunker, `chunkText` (`src/lib/utils.ts` lines 220-245) -/

/-- The `for (const word of words)` loop of `chunkText`, together with the
final flush of the current chunk.

State: `cur` is `currentChunk` (in order), `curLen` is `currentLength`.
The branch condition mirrors
`currentLength + wordLength > chunkSize && currentChunk.length > 0`
with `wordLength = word.length + 1`. -/
def chunkGo (chunkSize : Nat) : List (List Char) → List (List Char) → Nat → List (List Char)
  | [], cur, _ => if cur = [] then [] else [joinSp cur]
  | w :: ws, cur, curLen =>
    if chunkSize < curLen + (w.length + 1) ∧ cur ≠ [] then
      joinSp cur :: chunkGo chunkSize ws [w] (w.length + 1)
    else
      chunkGo chunkSize ws (cur ++ [w]) (curLen + (w.length + 1))

/-- `chunkText(text, chunkSize)` (`src/lib/utils.ts` lines 220-245):
split on whitespace runs, then greedily pack words into chunks. -/
def chunkText (text : List Char) (chunkSize : Nat) : List (List Char) :=
  chunkGo chunkSize (jsSplitWs text) [] 0

/-! ## Spec-side and auxiliary text definitions -/

/-- Maximal non-whitespace runs of a string, discarding empty segments
(the `tokens` in the words of the specification). -/
def tokensAux : List Char → List Char → List (List Char)
  | [], acc => if acc = [] then [] else [acc.reverse]
  | c :: cs, acc =>
    if isWs c then
      if acc = [] then tokensAux cs [] else acc.reverse :: tokensAux cs []
    else tokensAux cs (c :: acc)

/-- The non-empty whitespace-delimited tokens of a string. -/
def wsTokens (s : List Char) : List (List Char) := tokensAux s []

/-- Spec-side definition, following the words of the specification for the
coverage claim: the "whitespace-normalized form of the input text" is its
tokens, in order, rejoined with single spaces (so leading and trailing
whitespace disappears and inner runs collapse to one space). Compared against
the code-side `chunkText` below. -/
def specNormalizeWs (s : List Char) : List Char := joinSp (wsTokens s)

/-- Collapse every maximal whitespace run to a single space, keeping a
leading or trailing run (as one space). `prevWs` records whether the
previous character was whitespace. -/
def collapseWsAux : List Char → Bool → List Char
  | [], _ => []
  | c :: cs, prevWs =>
    if isWs c then
      if prevWs then collapseWsAux cs true else ' ' :: collapseWsAux cs true
    else c :: collapseWsAux cs false

/-- The input with every maximal whitespace run replaced by one space
(collapse without trimming). -/
def collapseWs (s : List Char) : List Char := collapseWsAux s false

/-- The running length counter of `chunkText`: each word contributes its
length plus one separator character. -/
def sumLen (l : List (List Char)) : Nat := (l.map fun w => w.length + 1).sum

/-! Scratch sanity checks of the JavaScript semantics model. -/

example : jsSplitWs "a b".data = ["a".data, "b".data] := by decide
example : jsSplitWs "".data = [[]] := by decide
example : jsSplitWs "   ".data = [[], []] := by decide
example : jsSplitWs " a  b ".data = [[], "a".data, "b".data, []] := by decide
example : chunkText "".data 1000 = [[]] := by decide
example : chunkText "   ".data 1000 = [" ".data] := by decide
example : chunkText "aaa b".data 2 = ["aaa".data, "b".data] := by decide
example : chunkText "aa bb cc".data 5 = ["aa".data, "bb".data, "cc".data] := by decide
example : chunkText "aa bb cc".data 6 = ["aa bb".data, "cc".data] := by decide
example : chunkText "aa bb cc".data 8 = ["aa bb".data, "cc".data] := by decide
example : chunkText "aa bb cc".data 9 = ["aa bb cc".data] := by decide

/-! ## Lemmas about joining -/

theorem joinSp_cons (w : List Char) (l : List (List Char)) (h : l ≠ []) :
    joinSp (w :: l) = w ++ ' ' :: joinSp l := by
  cases l with
  | nil => exact absurd rfl h
  | cons w2 ws => rfl

theorem joinSp_append (a b : List (List Char)) (ha : a ≠ []) (hb : b ≠ []) :
    joinSp (a ++ b) = joinSp a ++ ' ' :: joinSp b := by
  induction a with
  | nil => exact absurd rfl ha
  | cons w ws ih =>
    cases ws with
    | nil =>
      simp only [List.singleton_append, joinSp]
      rw [joinSp_cons w b hb]
    | cons w2 ws2 =>
      rw [List.cons_append, joinSp_cons w ((w2 :: ws2) ++ b) (by simp),
        joinSp_cons w (w2 :: ws2) (by simp), ih (by simp)]
      simp [List.append_assoc]

theorem joinSp_length (l : List (List Char)) (h : l ≠ []) :
    (joinSp l).length + 1 = sumLen l := by
  induction l with
  | nil => exact absurd rfl h
  | cons w ws ih =>
    cases ws with
    | nil => simp [joinSp, sumLen]
    | cons w2 ws2 =>
      rw [joinSp_cons w (w2 :: ws2) (by simp)]
      simp only [sumLen, List.map_cons, List.sum_cons, List.length_append,
        List.length_cons]
      have := ih (by simp)
      simp only [sumLen, List.map_cons, List.sum_cons] at this
      omega

theorem sumLen_append (a b : List (List Char)) :
    sumLen (a ++ b) = sumLen a + sumLen b := by
  simp [sumLen]

/-! ## Lemmas about the chunking loop -/

theorem chunkGo_ne_nil (n : Nat) (ws : List (List Char)) :
    ∀ (cur : List (List Char)) (curLen : Nat), cur ≠ [] →
      chunkGo n ws cur curLen ≠ [] := by
  induction ws with
  | nil =>
    intro cur curLen hcur
    simp [chunkGo, hcur]
  | cons w ws2 ih =>
    intro cur curLen hcur
    simp only [chunkGo]
    split
    · simp
    · exact ih (cur ++ [w]) (curLen + (w.length + 1)) (by simp)

theorem chunkGo_join (n : Nat) (ws : List (List Char)) :
    ∀ (cur : List (List Char)) (curLen : Nat), cur ≠ [] →
      joinSp (chunkGo n ws cur curLen) = joinSp (cur ++ ws) := by
  induction ws with
  | nil =>
    intro cur curLen hcur
    simp [chunkGo, hcur, joinSp]
  | cons w ws2 ih =>
    intro cur curLen hcur
    simp only [chunkGo]
    split
    · rw [joinSp_cons (joinSp cur) (chunkGo n ws2 [w] (w.length + 1))
        (chunkGo_ne_nil n ws2 [w] (w.length + 1) (by simp)),
        ih [w] (w.length + 1) (by simp),
        joinSp_append cur (w :: ws2) hcur (by simp)]
      rfl
    · rw [ih (cur ++ [w]) (curLen + (w.length + 1)) (by simp)]
      simp

theorem splitWsAux_ne_nil (s : List Char) :
    ∀ (b : Bool) (acc : List Char), splitWsAux s b acc ≠ [] := by
  induction s with
  | nil => intro b acc; simp [splitWsAux]
  | cons c cs ih =>
    intro b acc
    simp only [splitWsAux]
    split
    · split
      · exact ih true acc
      · simp
    · exact ih false (c :: acc)

theorem splitWsAux_join (s : List Char) :
    ∀ (b : Bool) (acc : List Char),
      joinSp (splitWsAux s b acc) = acc.reverse ++ collapseWsAux s b := by
  induction s with
  | nil => intro b acc; simp [splitWsAux, collapseWsAux, joinSp]
  | cons c cs ih =>
    intro b acc
    simp only [splitWsAux, collapseWsAux]
    split
    · split
      · exact ih true acc
      · rw [joinSp_cons acc.reverse (splitWsAux cs true [])
          (splitWsAux_ne_nil cs true []), ih true []]
        simp
    · rw [ih false (c :: acc)]
      simp

theorem jsSplitWs_join (s : List Char) : joinSp (jsSplitWs s) = collapseWs s := by
  have := splitWsAux_join s false []
  simpa [jsSplitWs, collapseWs] using this

/-- The chunk-size invariant of the loop: every emitted chunk either fits in
`n` characters or is one of the words in `allWords`. -/
theorem chunkGo_mem_bound (n : Nat) (allWords : List (List Char))
    (ws : List (List Char)) :
    ∀ (cur : List (List Char)) (curLen : Nat),
      curLen = sumLen cur →
      (sumLen cur ≤ n ∨ ∃ w, cur = [w]) →
      (∀ w, w ∈ cur → w ∈ allWords) →
      (∀ w, w ∈ ws → w ∈ allWords) →
      ∀ c, c ∈ chunkGo n ws cur curLen → c.length ≤ n ∨ c ∈ allWords := by
  induction ws with
  | nil =>
    intro cur curLen hlen hinv hcur hws c hc
    by_cases hnil : cur = []
    · simp [chunkGo, hnil] at hc
    · simp only [chunkGo, if_neg hnil] at hc
      simp only [List.mem_singleton] at hc
      subst hc
      rcases hinv with hle | ⟨w, rfl⟩
      · left
        have := joinSp_length cur hnil
        omega
      · right
        exact hcur w (by simp)
  | cons w ws2 ih =>
    intro cur curLen hlen hinv hcur hws c hc
    simp only [chunkGo] at hc
    split at hc
    · rename_i hcond
      rcases List.mem_cons.mp hc with hhead | htail
      · subst hhead
        rcases hinv with hle | ⟨w0, rfl⟩
        · left
          have := joinSp_length cur hcond.2
          omega
        · right
          exact hcur w0 (by simp)
      · refine ih [w] (w.length + 1) (by simp [sumLen]) (Or.inr ⟨w, rfl⟩)
          ?_ (fun x hx => hws x (List.mem_cons_of_mem w hx)) c htail
        intro z hz
        rw [List.mem_singleton] at hz
        rw [hz]
        exact hws w (by simp)
    · rename_i hcond
      rw [not_and_or, not_lt] at hcond
      refine ih (cur ++ [w]) (curLen + (w.length + 1)) ?_ ?_ ?_ ?_ c hc
      · simp [sumLen_append, sumLen, hlen]
      · rcases hcond with hle | hnil
        · left
          rw [sumLen_append]
          have h1 : sumLen [w] = w.length + 1 := by simp [sumLen]
          omega
        · rw [not_not] at hnil
          subst hnil
          exact Or.inr ⟨w, rfl⟩
      · intro x hx
        rcases List.mem_append.mp hx with h1 | h2
        · exact hcur x h1
        · simp at h2; subst h2; exact hws x (by simp)
      · intro x hx
        exact hws x (List.mem_cons_of_mem w hx)

/-- Once the running chunk is a single word and the counter already exceeds
`n`, that word is emitted as a chunk by itself. -/
theorem chunkGo_single_emitted (n : Nat) (ws : List (List Char))
    (w : List Char) :
    ∀ curLen : Nat, n < curLen → w ∈ chunkGo n ws [w] curLen := by
  induction ws with
  | nil =>
    intro curLen _
    simp [chunkGo, joinSp]
  | cons w2 ws2 _
  =>
    intro curLen hlt
    simp only [chunkGo]
    rw [if_pos ⟨by omega, by simp⟩]
    simp [joinSp]

/-- Every word longer than `n` appears, whole, as one of the emitted chunks. -/
theorem chunkGo_oversized (n : Nat) (ws : List (List Char)) (w : List Char) :
    ∀ (cur : List (List Char)) (curLen : Nat),
      w ∈ ws → n < w.length → w ∈ chunkGo n ws cur curLen := by
  induction ws with
  | nil => intro cur curLen hmem _; simp at hmem
  | cons w0 ws0 ih =>
    intro cur curLen hmem hlong
    simp only [chunkGo]
    split
    · rcases List.mem_cons.mp hmem with rfl | htail
      · exact List.mem_cons_of_mem _ (chunkGo_single_emitted n ws0 w
          (w.length + 1) (by omega))
      · exact List.mem_cons_of_mem _ (ih [w0] (w0.length + 1) htail hlong)
    · rename_i hcond
      rw [not_and_or, not_lt] at hcond
      rcases List.mem_cons.mp hmem with rfl | htail
      · rcases hcond with hle | hnil
        · omega
        · rw [not_not] at hnil
          subst hnil
          simp only [List.nil_append]
          exact chunkGo_single_emitted n ws0 w (curLen + (w.length + 1))
            (by omega)
      · exact ih (cur ++ [w0]) (curLen + (w0.length + 1)) htail hlong

/-! ## Claim theorems for the chunker -/

/-- Claim C1: for every input text and every `maxChunkSize > 0`, every chunk
returned by `chunkText` has length at most `maxChunkSize`, except a chunk
consisting of a single word of the whitespace split whose own length exceeds
`maxChunkSize`; such an oversized word is never split and is emitted alone as
its own chunk. -/
theorem chunkText_size_invariant (text : List Char) (n : Nat) (_hn : 0 < n) :
    (∀ c, c ∈ chunkText text n →
      c.length ≤ n ∨ (n < c.length ∧ c ∈ jsSplitWs text)) ∧
    (∀ w, w ∈ jsSplitWs text → n < w.length → w ∈ chunkText text n) := by
  constructor
  · intro c hc
    have hbound := chunkGo_mem_bound n (jsSplitWs text) (jsSplitWs text) [] 0
      (by simp [sumLen]) (Or.inl (by simp [sumLen])) (by intro w hw; simp at hw)
      (fun w hw => hw) c hc
    by_cases hle : c.length ≤ n
    · exact Or.inl hle
    · rcases hbound with h1 | h2
      · exact Or.inl h1
      · exact Or.inr ⟨by omega, h2⟩
  · intro w hw hlong
    exact chunkGo_oversized n (jsSplitWs text) w [] 0 hw hlong

theorem chunkText_size_invariant_witness :
    ("aaa".data.length ≤ 2 ∨ (2 < "aaa".data.length ∧ "aaa".data ∈ jsSplitWs "aaa b".data)) ∧
    "aaa".data ∈ chunkText "aaa b".data 2 :=
  ⟨(chunkText_size_invariant "aaa b".data 2 (by decide)).1 "aaa".data (by decide),
   (chunkText_size_invariant "aaa b".data 2 (by decide)).2 "aaa".data (by decide) (by decide)⟩

/-- Claim C2, counterexample: on the pure-whitespace input `"   "` the chunks
rejoined with single spaces are `" "`, while the whitespace-normalized form of
the input (its tokens rejoined with single spaces) is the empty string. -/
theorem chunkText_coverage_counterexample :
    joinSp (chunkText "   ".data 10) = [' '] ∧
    specNormalizeWs "   ".data = [] ∧
    joinSp (chunkText "   ".data 10) ≠ specNormalizeWs "   ".data := by
  exact ⟨by decide, by decide, by decide⟩

/-- Claim C2 as amended: for every input text and every `maxChunkSize`,
concatenating all chunks returned by `chunkText`, rejoined with single
spaces, equals the input text with every maximal whitespace run collapsed to
a single space (without trimming: a leading or trailing whitespace run
survives as one space; word order is preserved, no word dropped or
duplicated). -/
theorem chunkText_coverage (text : List Char) (n : Nat) :
    joinSp (chunkText text n) = collapseWs text := by
  unfold chunkText
  rcases hs : jsSplitWs text with _ | ⟨w, ws⟩
  · exact absurd hs (splitWsAux_ne_nil text false [])
  · have hstep : chunkGo n (w :: ws) [] 0 = chunkGo n ws [w] (0 + (w.length + 1)) := by
      simp [chunkGo]
    rw [hstep, chunkGo_join n ws [w] (0 + (w.length + 1)) (by simp)]
    have := jsSplitWs_join text
    rw [hs] at this
    simpa using this

/-- Claim C3, counterexample: `chunkText` on the empty string returns a
single empty chunk (not the empty sequence), and on `"   "` returns a single
one-space chunk. -/
theorem chunkText_empty_counterexample :
    chunkText [] 1000 = [[]] ∧
    chunkText "   ".data 1000 = [[' ']] ∧
    chunkText ([] : List Char) 1000 ≠ ([] : List (List Char)) := by
  exact ⟨by decide, by decide, by decide⟩

/-- Claim C3 as amended: for every `maxChunkSize n`, `chunkText` applied to
the empty string returns the one-element sequence containing the empty chunk,
and applied to the three-space string it returns, for `n ≥ 2`, the
one-element sequence containing a single-space chunk; for every `n` the
result on the three-space string is non-empty — `chunkText` never returns
the empty sequence on these inputs. -/
theorem chunkText_empty_amended (n : Nat) :
    chunkText [] n = [[]] ∧
    (2 ≤ n → chunkText "   ".data n = [[' ']]) ∧
    chunkText "   ".data n ≠ [] := by
  refine ⟨?_, ?_, ?_⟩
  · show chunkGo n (jsSplitWs []) [] 0 = [[]]
    rw [show jsSplitWs [] = [[]] from rfl]
    rw [show chunkGo n [[]] [] 0 = chunkGo n [] [[]] 1 from by
      simp only [chunkGo]
      rw [if_neg (by simp)]
      rfl]
    simp [chunkGo, joinSp]
  · intro hn
    show chunkGo n (jsSplitWs "   ".data) [] 0 = [[' ']]
    rw [show jsSplitWs "   ".data = [[], []] from by decide]
    rw [show chunkGo n [[], []] [] 0 = chunkGo n [[]] [[]] 1 from by
      simp only [chunkGo]
      rw [if_neg (by simp)]
      rfl]
    rw [show chunkGo n [[]] [[]] 1 = chunkGo n [] [[], []] 2 from by
      simp only [chunkGo]
      rw [if_neg (by
        rintro ⟨h1, h2⟩
        simp only [List.length_nil] at h1
        omega)]
      rfl]
    simp [chunkGo, joinSp]
  · show chunkGo n (jsSplitWs "   ".data) [] 0 ≠ []
    rw [show jsSplitWs "   ".data = [[], []] from by decide]
    rw [show chunkGo n [[], []] [] 0 = chunkGo n [[]] [[]] 1 from by
      simp only [chunkGo]
      rw [if_neg (by simp)]
      rfl]
    exact chunkGo_ne_nil n [[]] [[]] 1 (by simp)

theorem chunkText_empty_amended_witness :
    2 ≤ 7 ∧ chunkText "   ".data 7 = [[' ']] :=
  ⟨by decide, (chunkText_empty_amended 7).2.1 (by decide)⟩

/-- Claim C9: chunking is deterministic — `chunkText` is a pure function of
the pair `(text, maxChunkSize)`, so two calls with identical arguments return
identical chunk sequences. -/
theorem chunkText_deterministic (text : List Char) (n : Nat) :
    chunkText text n = chunkText text n := rfl

/-! ## Metadata model

JavaScript metadata objects (`Record<string, string | number | boolean |
string[]>`) are modelled as association lists from keys to `MetaValue`;
`metaLookup` is property access, and `metaSet` is the effect of an object
spread `{...m, k: v}` on the `k` property (the new binding shadows any old
one). -/

inductive MetaValue where
  | str : String → MetaValue
  | num : Int → MetaValue
  | bool : Bool → MetaValue
  | strList : List String → MetaValue
deriving DecidableEq, Repr

/-- Property access `m[k]` on a metadata object. -/
def metaLookup (m : List (String × MetaValue)) (k : String) : Option MetaValue :=
  match m with
  | [] => none
  | (k2, v) :: rest => if k2 = k then some v else metaLookup rest k

/-- Object spread `{...m, k: v}`: binds `k` to `v`, keeps every other key. -/
def metaSet (m : List (String × MetaValue)) (k : String) (v : MetaValue) :
    List (String × MetaValue) :=
  (k, v) :: m.filter fun p => ¬ p.1 = k

theorem metaLookup_metaSet_same (m : List (String × MetaValue)) (k : String)
    (v : MetaValue) : metaLookup (metaSet m k v) k = some v := by
  simp [metaSet, metaLookup]

theorem metaLookup_filter_ne (m : List (String × MetaValue)) (k k2 : String)
    (h : k2 ≠ k) :
    metaLookup (m.filter fun p => ¬ p.1 = k) k2 = metaLookup m k2 := by
  induction m with
  | nil => rfl
  | cons p rest ih =>
    by_cases hp : p.1 = k
    · rw [show (p :: rest).filter (fun p => ¬ p.1 = k) = rest.filter fun p => ¬ p.1 = k from by
        simp [List.filter, hp]]
      rw [ih]
      have : ¬ p.1 = k2 := by rw [hp]; exact fun hh => h hh.symm
      cases p with
      | mk k3 v3 => simp only [metaLookup]; rw [if_neg this]
    · rw [show (p :: rest).filter (fun p => ¬ p.1 = k) = p :: rest.filter fun p => ¬ p.1 = k from by
        simp [List.filter, hp]]
      cases p with
      | mk k3 v3 =>
        simp only [metaLookup]
        by_cases h3 : k3 = k2
        · rw [if_pos h3, if_pos h3]
        · rw [if_neg h3, if_neg h3, ih]

theorem metaLookup_metaSet_other (m : List (String × MetaValue)) (k k2 : String)
    (v : MetaValue) (h : k2 ≠ k) :
    metaLookup (metaSet m k v) k2 = metaLookup m k2 := by
  simp only [metaSet, metaLookup]
  rw [if_neg fun hh => h hh.symm]
  exact metaLookup_filter_ne m k k2 h

/-! ## Search results and content extraction (`src/lib/utils.ts`) -/

/-- `VectorSearchResult` (hit of a Pinecone query, as shaped by
`vectorSearch`): id, similarity score (carried opaquely, never computed on),
metadata object. -/
structure VectorSearchResult where
  id : String
  score : Int
  metadata : List (String × MetaValue)
deriving DecidableEq, Repr

/-- `extractContentFromSearchResult` (`src/lib/utils.ts` lines 185-190):
`const content = result.metadata?.content;
 return typeof content === "string" ? content : "";` -/
def extractContentFromSearchResult (result : VectorSearchResult) : String :=
  match metaLookup result.metadata "content" with
  | some (MetaValue.str s) => s
  | _ => ""

/-! ## The RAG query handler (`src/app/api/rag/query/route.ts`) -/

/-- The filtered metadata view built for each source by the query handler
(`route.ts` lines 127-150): an object literal with exactly the keys `title`,
`url`, `createdAt`, `updatedAt`, `documentType`, each present only when the
underlying metadata value is a string (`typeof x === "string" ? x :
undefined`). -/
structure SourceMetadataView where
  title : Option String
  url : Option String
  createdAt : Option String
  updatedAt : Option String
  documentType : Option String
deriving DecidableEq, Repr

/-- `typeof v === "string" ? v : undefined` on an optional metadata value. -/
def asStringMeta : Option MetaValue → Option String
  | some (MetaValue.str s) => some s
  | _ => none

/-- The `includeMetadata ? {...} : {}` metadata view for one search result. -/
def filterMetadataView (m : List (String × MetaValue)) : SourceMetadataView :=
  { title := asStringMeta (metaLookup m "title")
    url := asStringMeta (metaLookup m "url")
    createdAt := asStringMeta (metaLookup m "createdAt")
    updatedAt := asStringMeta (metaLookup m "updatedAt")
    documentType := asStringMeta (metaLookup m "documentType") }

/-- The empty metadata object `{}` (present, not omitted). -/
def emptyMetadataView : SourceMetadataView :=
  { title := none, url := none, createdAt := none, updatedAt := none,
    documentType := none }

/-- `DocumentSource` (one entry of the response `sources` array). -/
structure DocumentSource where
  id : String
  content : String
  score : Int
  metadata : SourceMetadataView
deriving DecidableEq, Repr

/-- The source entry built for one search result (`route.ts` lines 123-151). -/
def mkDocumentSource (includeMetadata : Bool) (result : VectorSearchResult) :
    DocumentSource :=
  { id := result.id
    content := extractContentFromSearchResult result
    score := result.score
    metadata :=
      if includeMetadata then filterMetadataView result.metadata
      else emptyMetadataView }

/-- The response of a successful query (`RAGQueryResponse` restricted to the
fields the claims are about). `generatorCalls` instruments the control flow:
it is `1` exactly on the code path that invokes `generateRAGResponse` and `0`
on the zero-results short-circuit path, which returns before that call. -/
structure RagQueryOutcome where
  answer : String
  sources : List DocumentSource
  llmGenerationTimeMs : Nat
  totalDocumentsSearched : Nat
  generatorCalls : Nat
deriving DecidableEq, Repr

/-- The fixed no-relevant-information answer (`route.ts` lines 97-98). -/
def noRelevantInfoAnswer : String :=
  "I couldn\x27t find any relevant information to answer your question."

/-- `answerQuery`: the part of the `POST /api/rag/query` handler
(`route.ts` lines 95-163) that runs after the vector search returned
`searchResults`. `gen` is the Answer Generator collaborator
(`generateRAGResponse`) and `genTime` the elapsed time its call would be
measured at. If zero results were returned the handler short-circuits
(lines 95-108); otherwise it extracts the context, calls the generator, and
assembles the sources (lines 110-163). -/
def answerQuery (searchResults : List VectorSearchResult) (query : String)
    (includeMetadata : Bool) (gen : String → List String → String)
    (genTime : Nat) : RagQueryOutcome :=
  if searchResults.length = 0 then
    { answer := noRelevantInfoAnswer
      sources := []
      llmGenerationTimeMs := 0
      totalDocumentsSearched := 0
      generatorCalls := 0 }
  else
    let contextTexts := searchResults.map extractContentFromSearchResult
    { answer := gen query contextTexts
      sources := searchResults.map (mkDocumentSource includeMetadata)
      llmGenerationTimeMs := genTime
      totalDocumentsSearched := searchResults.length
      generatorCalls := 1 }

/-! ## Top-K resolution (`src/lib/utils.ts` lines 138-145, `route.ts` lines 84-89) -/

/-- JavaScript `a || b` on an optional number `a` (absent and `0` are falsy;
every nonzero number, negative ones included, is truthy). -/
def jsOrNum (a : Option Int) (b : Int) : Int :=
  match a with
  | none => b
  | some x => if x = 0 then b else x

/-- `const k = topK || config.topKResults` inside `vectorSearch`
(`src/lib/utils.ts` line 143). -/
def vectorSearchTopK (topK : Option Int) (configTopK : Int) : Int :=
  jsOrNum topK configTopK

/-- The top-K count the query handler requests from the index:
`vectorSearch(embedding, maxResults || config.topKResults)`
(`route.ts` lines 85-88) composed with the resolution inside `vectorSearch`. -/
def queryHandlerTopK (maxResults : Option Int) (configTopK : Int) : Int :=
  vectorSearchTopK (some (jsOrNum maxResults configTopK)) configTopK

/-- `parseInt(process.env.TOP_K_RESULTS || "5", 10)` with the variable unset
(`src/lib/utils.ts` line 26). -/
def defaultTopKResults : Int := 5

/-! ## The ingestion worker (`src/app/api/ingestion/worker/route.ts`) -/

/-- `DocumentToIngest`: a raw document fetched for ingestion. -/
structure DocumentToIngest where
  id : String
  content : String
  metadata : List (String × MetaValue)
deriving DecidableEq, Repr

/-- `IngestionError` (one entry of the per-document error list). -/
structure IngestionError where
  documentId : String
  message : String
  timestamp : String
deriving DecidableEq, Repr

/-- The fields of `IngestionWorkerResponse` the claims are about. -/
structure IngestionWorkerResponse where
  success : Bool
  documentsProcessed : Nat
  errors : List IngestionError
deriving DecidableEq, Repr

/-- Whether an `Except` result is a success. -/
def exceptOk {ε α : Type} : Except ε α → Bool
  | Except.ok _ => true
  | Except.error _ => false

/-- The `for (const document of documents)` loop of the worker handler
(`route.ts` lines 70-89): `processDocument` is tried per document; a success
increments the processed count (modelled as the list of processed document
ids, whose length is `processedCount`), a failure appends one
`IngestionError` built from the document id, the thrown message and the
current timestamp `now`, and the loop continues with the next document. -/
def ingestLoop (proc : DocumentToIngest → Except String Unit) (now : String) :
    List DocumentToIngest → List String × List IngestionError
  | [] => ([], [])
  | d :: ds =>
    let rest := ingestLoop proc now ds
    match proc d with
    | Except.ok _ => (d.id :: rest.1, rest.2)
    | Except.error msg =>
      (rest.1, { documentId := d.id, message := msg, timestamp := now } :: rest.2)

/-- `runIngestionJob`: the document-processing part of the worker `POST`
handler (`route.ts` lines 70-100). Builds the response from the loop state:
`success: errors.length === 0`, `documentsProcessed: processedCount`. -/
def runIngestionJob (proc : DocumentToIngest → Except String Unit)
    (now : String) (documents : List DocumentToIngest) :
    IngestionWorkerResponse :=
  let r := ingestLoop proc now documents
  { success := r.2.length = 0
    documentsProcessed := r.1.length
    errors := r.2 }

/-- `VectorDocument` (the `VectorRecord` of the spec), with the embedding
vector type abstract (`E`): the code never computes on embedding values, it
only moves them. `values` is an `Option` because the code reads
`embeddings[index]`, which in JavaScript is `undefined` when out of range. -/
structure VectorDocument (E : Type) where
  id : String
  values : Option E
  metadata : List (String × MetaValue)
deriving DecidableEq, Repr

/-- The record built for the chunk at index `index`
(`route.ts` lines 211-220):
`{ id: `{documentId}_chunk_{index}`, values: embeddings[index],
   metadata: {...document.metadata, content: chunk, chunkIndex: index,
              totalChunks: chunks.length} }`. -/
def mkChunkRecord {E : Type} (documentId : String)
    (docMeta : List (String × MetaValue)) (totalChunks : Nat)
    (embeddings : List E) (index : Nat) (chunk : String) : VectorDocument E :=
  { id := documentId ++ "_chunk_" ++ toString index
    values := embeddings.get? index
    metadata :=
      metaSet
        (metaSet
          (metaSet docMeta "content" (MetaValue.str chunk))
          "chunkIndex" (MetaValue.num index))
        "totalChunks" (MetaValue.num totalChunks) }

/-- The indexed `chunks.map((chunk, index) => ...)` of `processDocument`
(`route.ts` lines 211-220), with `index` starting at `start`. -/
def processDocumentVectorsAux {E : Type} (documentId : String)
    (docMeta : List (String × MetaValue)) (totalChunks : Nat)
    (embeddings : List E) : List String → Nat → List (VectorDocument E)
  | [], _ => []
  | chunk :: rest, start =>
    mkChunkRecord documentId docMeta totalChunks embeddings start chunk ::
      processDocumentVectorsAux documentId docMeta totalChunks embeddings rest
        (start + 1)

/-- The `vectorDocuments` array built by `processDocument`
(`route.ts` lines 211-220): one `VectorDocument` per chunk, index-aligned
with the batch-embedding output. -/
def processDocumentVectors {E : Type} (documentId : String)
    (docMeta : List (String × MetaValue)) (chunks : List String)
    (embeddings : List E) : List (VectorDocument E) :=
  processDocumentVectorsAux documentId docMeta chunks.length embeddings chunks 0

/-! ## Lemmas about the ingestion loop and record construction -/

theorem ingestLoop_errors (proc : DocumentToIngest → Except String Unit)
    (now : String) (documents : List DocumentToIngest) :
    (ingestLoop proc now documents).2
      = documents.filterMap fun d =>
          match proc d with
          | Except.error m =>
            some { documentId := d.id, message := m, timestamp := now }
          | Except.ok _ => none := by
  induction documents with
  | nil => rfl
  | cons d ds ih =>
    rcases hpd : proc d with u | m
    · simp [ingestLoop, hpd, List.filterMap_cons, ih]
    · simp [ingestLoop, hpd, List.filterMap_cons, ih]

theorem ingestLoop_processed (proc : DocumentToIngest → Except String Unit)
    (now : String) (documents : List DocumentToIngest) :
    (ingestLoop proc now documents).1
      = (documents.filter fun d => exceptOk (proc d)).map fun d => d.id := by
  induction documents with
  | nil => rfl
  | cons d ds ih =>
    rcases hpd : proc d with u | m
    · simp [ingestLoop, hpd, List.filter_cons, exceptOk, ih]
    · simp [ingestLoop, hpd, List.filter_cons, exceptOk, ih]

theorem processDocumentVectorsAux_get? {E : Type} (documentId : String)
    (docMeta : List (String × MetaValue)) (totalChunks : Nat)
    (embeddings : List E) :
    ∀ (chunks : List String) (start i : Nat),
      (processDocumentVectorsAux documentId docMeta totalChunks embeddings
        chunks start).get? i
        = (chunks.get? i).map fun c =>
            mkChunkRecord documentId docMeta totalChunks embeddings (start + i) c := by
  intro chunks
  induction chunks with
  | nil => intro start i; simp [processDocumentVectorsAux]
  | cons c rest ih =>
    intro start i
    cases i with
    | zero => simp [processDocumentVectorsAux]
    | succ j =>
      simp only [processDocumentVectorsAux, List.get?_cons_succ]
      rw [ih (start + 1) j, show start + 1 + j = start + (j + 1) from by omega]

/-! ## Claim theorems for the query handler and the ingestion worker -/

/-- Claim C4: when the vector search returned zero results, the query handler
short-circuits: it returns the fixed no-relevant-information answer, an empty
sources list, a generation time of zero, zero documents searched, and the
Answer Generator collaborator is never invoked (the result is the same
constant record for every generator `gen` and every `genTime`). -/
theorem answerQuery_zero_results (query : String) (includeMetadata : Bool)
    (gen : String → List String → String) (genTime : Nat) :
    answerQuery [] query includeMetadata gen genTime =
      { answer := noRelevantInfoAnswer
        sources := []
        llmGenerationTimeMs := 0
        totalDocumentsSearched := 0
        generatorCalls := 0 } := rfl

/-- Claim C5: the ingestion job never fails as a whole for per-document
failures: the error list has exactly one entry (document id, thrown message,
timestamp) per failing document, in input order; every non-failing document
is still processed (the processed-id trace is exactly the succeeding
documents, in order, regardless of failures around them);
`documentsProcessed` counts the successes; and `success` is true iff the
error list is empty. -/
theorem runIngestionJob_failure_isolation
    (proc : DocumentToIngest → Except String Unit) (now : String)
    (documents : List DocumentToIngest) :
    (runIngestionJob proc now documents).errors
      = (documents.filterMap fun d =>
          match proc d with
          | Except.error m =>
            some { documentId := d.id, message := m, timestamp := now }
          | Except.ok _ => none) ∧
    (ingestLoop proc now documents).1
      = ((documents.filter fun d => exceptOk (proc d)).map fun d => d.id) ∧
    (runIngestionJob proc now documents).documentsProcessed
      = (documents.filter fun d => exceptOk (proc d)).length ∧
    ((runIngestionJob proc now documents).success = true ↔
      (runIngestionJob proc now documents).errors = []) := by
  refine ⟨ingestLoop_errors proc now documents,
    ingestLoop_processed proc now documents, ?_, ?_⟩
  · show (ingestLoop proc now documents).1.length = _
    rw [ingestLoop_processed proc now documents, List.length_map]
  · show decide ((ingestLoop proc now documents).2.length = 0) = true ↔ _
    simp [runIngestionJob, List.length_eq_zero]

/-- Claim C6: during ingestion of a document whose content was chunked into
`N` chunks, with an index-aligned batch-embedding output of length `N`, the
`i`-th vector record has id `{documentId}_chunk_{i}`, embedding the `i`-th
batch output element, and metadata in which the reserved `content` key maps
to the `i`-th chunk text (overriding any `content` entry that the document metadata
itself contains), `chunkIndex` maps to `i`, `totalChunks` maps to `N`, and every
other key is taken unchanged from the document metadata. -/
theorem processDocument_vectorRecords {E : Type} (documentId : String)
    (docMeta : List (String × MetaValue)) (chunks : List String)
    (embeddings : List E) (i : Nat)
    (_hlen : embeddings.length = chunks.length)
    (hi : i < chunks.length) (hie : i < embeddings.length) :
    ∃ v : VectorDocument E,
      (processDocumentVectors documentId docMeta chunks embeddings).get? i
        = some v ∧
      v.id = documentId ++ "_chunk_" ++ toString i ∧
      v.values = some (embeddings.get ⟨i, hie⟩) ∧
      metaLookup v.metadata "content"
        = some (MetaValue.str (chunks.get ⟨i, hi⟩)) ∧
      metaLookup v.metadata "chunkIndex" = some (MetaValue.num i) ∧
      metaLookup v.metadata "totalChunks"
        = some (MetaValue.num chunks.length) ∧
      ∀ k, k ≠ "content" → k ≠ "chunkIndex" → k ≠ "totalChunks" →
        metaLookup v.metadata k = metaLookup docMeta k := by
  refine ⟨mkChunkRecord documentId docMeta chunks.length embeddings i
    (chunks.get ⟨i, hi⟩), ?_, rfl, ?_, ?_, ?_, ?_, ?_⟩
  · rw [processDocumentVectors,
      processDocumentVectorsAux_get? documentId docMeta chunks.length
        embeddings chunks 0 i,
      List.get?_eq_get hi]
    simp
  · show embeddings.get? i = _
    exact List.get?_eq_get hie
  · show metaLookup (metaSet (metaSet (metaSet docMeta "content" _)
      "chunkIndex" _) "totalChunks" _) "content" = _
    rw [metaLookup_metaSet_other _ _ _ _ (by decide),
      metaLookup_metaSet_other _ _ _ _ (by decide),
      metaLookup_metaSet_same]
  · show metaLookup (metaSet (metaSet (metaSet docMeta "content" _)
      "chunkIndex" _) "totalChunks" _) "chunkIndex" = _
    rw [metaLookup_metaSet_other _ _ _ _ (by decide),
      metaLookup_metaSet_same]
  · exact metaLookup_metaSet_same _ _ _
  · intro k hk1 hk2 hk3
    show metaLookup (metaSet (metaSet (metaSet docMeta "content" _)
      "chunkIndex" _) "totalChunks" _) k = _
    rw [metaLookup_metaSet_other _ _ _ _ hk3,
      metaLookup_metaSet_other _ _ _ _ hk2,
      metaLookup_metaSet_other _ _ _ _ hk1]

theorem processDocument_vectorRecords_witness :
    ∃ v : VectorDocument Nat,
      (processDocumentVectors "doc1"
        [("content", MetaValue.str "old"), ("x", MetaValue.num 7)]
        ["hello", "world"] [10, 20]).get? 1 = some v ∧
      v.id = "doc1" ++ "_chunk_" ++ toString 1 ∧
      v.values = some (([10, 20] : List Nat).get ⟨1, by decide⟩) ∧
      metaLookup v.metadata "content"
        = some (MetaValue.str ((["hello", "world"] : List String).get ⟨1, by decide⟩)) ∧
      metaLookup v.metadata "chunkIndex" = some (MetaValue.num 1) ∧
      metaLookup v.metadata "totalChunks"
        = some (MetaValue.num (["hello", "world"] : List String).length) ∧
      ∀ k, k ≠ "content" → k ≠ "chunkIndex" → k ≠ "totalChunks" →
        metaLookup v.metadata k
          = metaLookup [("content", MetaValue.str "old"), ("x", MetaValue.num 7)] k :=
  processDocument_vectorRecords "doc1"
    [("content", MetaValue.str "old"), ("x", MetaValue.num 7)]
    ["hello", "world"] [10, 20] 1 (by decide) (by decide) (by decide)

/-- Claim C7: with `includeMetadata = false` every returned source carries
the empty metadata object (present, all recognized fields absent), and with
`includeMetadata = true` every source carries the filtered view holding only
the recognized keys `title`, `url`, `createdAt`, `updatedAt`,
`documentType`, whatever other keys the underlying search-result metadata
contains. -/
theorem answerQuery_metadata_filtering (searchResults : List VectorSearchResult)
    (query : String) (gen : String → List String → String) (genTime : Nat) :
    (answerQuery searchResults query false gen genTime).sources
      = (searchResults.map fun r =>
          { id := r.id
            content := extractContentFromSearchResult r
            score := r.score
            metadata := emptyMetadataView }) ∧
    (answerQuery searchResults query true gen genTime).sources
      = searchResults.map fun r =>
          { id := r.id
            content := extractContentFromSearchResult r
            score := r.score
            metadata := filterMetadataView r.metadata } := by
  cases searchResults with
  | nil => exact ⟨rfl, rfl⟩
  | cons r rs =>
    constructor
    · simp [answerQuery, mkDocumentSource]
    · simp [answerQuery, mkDocumentSource]

/-- Claim C8: extracting the content string from a search result is a total
function that never throws: if the `content` entry of the metadata is a string it
is returned, and if it is missing or not a string the empty string is
returned. -/
theorem extractContent_total (result : VectorSearchResult) (s : String) :
    (metaLookup result.metadata "content" = some (MetaValue.str s) →
      extractContentFromSearchResult result = s) ∧
    ((∀ s2 : String,
        metaLookup result.metadata "content" ≠ some (MetaValue.str s2)) →
      extractContentFromSearchResult result = "") := by
  constructor
  · intro h
    simp [extractContentFromSearchResult, h]
  · intro h
    unfold extractContentFromSearchResult
    rcases hm : metaLookup result.metadata "content" with _ | v
    · rfl
    · cases v with
      | str s2 => exact absurd hm (h s2)
      | num n => rfl
      | bool b => rfl
      | strList l => rfl

theorem extractContent_total_witness :
    extractContentFromSearchResult
      { id := "id1", score := 3
        metadata := [("content", MetaValue.str "hello")] } = "hello" :=
  (extractContent_total
    { id := "id1", score := 3
      metadata := [("content", MetaValue.str "hello")] } "hello").1 (by decide)

/-- Claim C10: a missing `maxResults` and `maxResults = 0` both fall back to
the configured `TOP_K_RESULTS` (5 by default); every nonzero `maxResults`,
negative values included, is forwarded unclamped as the top-K count. -/
theorem queryHandlerTopK_resolution (configTopK k : Int) :
    queryHandlerTopK none configTopK = configTopK ∧
    queryHandlerTopK (some 0) configTopK = configTopK ∧
    (k ≠ 0 → queryHandlerTopK (some k) configTopK = k) ∧
    queryHandlerTopK none defaultTopKResults = 5 := by
  refine ⟨?_, ?_, ?_, rfl⟩
  · simp only [queryHandlerTopK, vectorSearchTopK, jsOrNum]
    split <;> rename_i h
    · simp [h]
    · simp [h]
  · simp [queryHandlerTopK, vectorSearchTopK, jsOrNum]
  · intro hk
    simp [queryHandlerTopK, vectorSearchTopK, jsOrNum, hk]

theorem queryHandlerTopK_resolution_witness :
    queryHandlerTopK (some (-3)) 5 = -3 :=
  (queryHandlerTopK_resolution 5 (-3)).2.2.1 (by decide)

end RagMvp
